import Mathlib

/-!
Shallow embedding of the warehouse picking/verification core
(`src/server/src/handlers/*.ts` plus the drizzle schema).  Entities are the
five logical tables; ids and timestamps are `Nat`.  Each handler becomes a
pure function from the entity store (`DB`) to `Except err (DB × result)`;
the SQL `update ... where id = x` statements become `List.map` with an id
test, and `select count(*) where ...` becomes `List.filter`/`length`.
Row ids are primary keys in the schema, so well-formed stores have no
duplicate ids; theorems that need this state it as a `Nodup` hypothesis.
The auto-generated surrogate id and `created_at` of pick/verification
records are never read back by any handler and are omitted from the record
structures.
-/

/-- Role enum from the drizzle `user_role` pgEnum. -/
inductive Role where
  | admin
  | picking
  | requester
deriving DecidableEq, Repr

/-- MOF status enum from the drizzle `mof_status` pgEnum:
`'Pending' | 'In Progress' | 'MOF siap Supply' | 'Completed'`. -/
inductive MofStatus where
  | pending
  | inProgress
  | siapSupply
  | completed
deriving DecidableEq, Repr

/-- Position of a status in the lifecycle order
Pending < In Progress < MOF siap Supply < Completed. -/
def MofStatus.rank : MofStatus → Nat
  | .pending => 0
  | .inProgress => 1
  | .siapSupply => 2
  | .completed => 3

/-- Row of the `users` table. -/
structure User where
  id : Nat
  username : String
  email : String
  full_name : String
  role : Role
  created_at : Nat
  updated_at : Nat
deriving DecidableEq, Repr

/-- Row of the `mofs` table. -/
structure Mof where
  id : Nat
  serial_number : String
  part_number : String
  quantity_requested : Nat
  expected_receiving_date : Nat
  requester_name : String
  department : String
  project : String
  status : MofStatus
  created_by : Nat
  created_at : Nat
  updated_at : Nat
deriving DecidableEq, Repr

/-- Row of the `items` table. -/
structure Item where
  id : Nat
  part_number : String
  supplier : String
  serial_number : String
  is_scanned_by_picker : Bool
  is_scanned_by_requester : Bool
  mof_id : Option Nat
  picked_at : Option Nat
  verified_at : Option Nat
  created_at : Nat
  updated_at : Nat
deriving DecidableEq, Repr

/-- Row of the `pick_records` table (surrogate id / created_at omitted,
they are never read). -/
structure PickRecord where
  mof_id : Nat
  item_id : Nat
  picked_by : Nat
  picked_at : Nat
deriving DecidableEq, Repr

/-- Row of the `verification_records` table (surrogate id / created_at
omitted, they are never read). -/
structure VerificationRecord where
  mof_id : Nat
  item_id : Nat
  verified_by : Nat
  verified_at : Nat
deriving DecidableEq, Repr

/-- The entity store: the five logical tables. -/
structure DB where
  users : List User
  mofs : List Mof
  items : List Item
  pickRecords : List PickRecord
  verificationRecords : List VerificationRecord
deriving DecidableEq, Repr

def emptyDB : DB := ⟨[], [], [], [], []⟩

/-- `select count(*) from items where mof_id = mid and is_scanned_by_picker`
(step 6 of `scan_item.ts`). -/
def pickedCount (items : List Item) (mid : Nat) : Nat :=
  (items.filter fun it => it.mof_id == some mid && it.is_scanned_by_picker).length

/-- `select count(*) from items where mof_id = mid and is_scanned_by_requester`
(step 6 of `verify_item.ts`). -/
def verifiedCount (items : List Item) (mid : Nat) : Nat :=
  (items.filter fun it => it.mof_id == some mid && it.is_scanned_by_requester).length

/-- The item mutation of `scan_item.ts` step 4. -/
def markPicked (mid now : Nat) (it : Item) : Item :=
  { it with is_scanned_by_picker := true, mof_id := some mid,
            picked_at := some now, updated_at := now }

/-- `update items set ... where id = iid` for a scan. -/
def scanUpdateItems (iid mid now : Nat) (items : List Item) : List Item :=
  items.map fun it => if it.id = iid then markPicked mid now it else it

/-- The item mutation of `verify_item.ts` step 4. -/
def markVerified (now : Nat) (it : Item) : Item :=
  { it with is_scanned_by_requester := true, verified_at := some now,
            updated_at := now }

/-- `update items set ... where id = iid` for a verification. -/
def verifyUpdateItems (iid now : Nat) (items : List Item) : List Item :=
  items.map fun it => if it.id = iid then markVerified now it else it

/-- `update mofs set status = st, updated_at = now where id = mid`. -/
def setMofStatus (mid : Nat) (st : MofStatus) (now : Nat) (mofs : List Mof) :
    List Mof :=
  mofs.map fun m => if m.id = mid then { m with status := st, updated_at := now }
                    else m

/-- Failure kinds of `scan_item.ts`, in the order the handler checks them. -/
inductive ScanError where
  | mofNotFound
  | itemNotFound
  | partNumberMismatch
  | alreadyPicked
deriving DecidableEq, Repr

/-- Failure kinds of `verify_item.ts`, in the order the handler checks them. -/
inductive VerifyError where
  | mofNotFound
  | itemNotFound
  | ownership
  | notYetPicked
  | alreadyVerified
deriving DecidableEq, Repr

inductive UpdateMofError where
  | mofNotFound
deriving DecidableEq, Repr

inductive CreateItemError where
  | duplicateSerial
deriving DecidableEq, Repr

inductive CreateMofError where
  | userNotFound
  | duplicateSerial
deriving DecidableEq, Repr

inductive CreateUserError where
  | duplicateUsername
  | duplicateEmail
deriving DecidableEq, Repr

/-- `scan_item.ts`: find the MOF by serial, find the item by serial, check
part-number match, reject duplicate picks, then mark the item picked and
bound to the MOF, append a pick record, recount picked items and update the
MOF status (`=== quantity_requested` gives `'MOF siap Supply'`, otherwise a
still-`Pending` MOF becomes `'In Progress'`).  The single `const now` of the
handler is the `now` parameter. -/
def scanItem (db : DB) (mofSerial itemSerial : String) (pickedBy now : Nat) :
    Except ScanError (DB × Item) :=
  match db.mofs.find? fun m => m.serial_number == mofSerial with
  | none => .error .mofNotFound
  | some mof =>
    match db.items.find? fun it => it.serial_number == itemSerial with
    | none => .error .itemNotFound
    | some item =>
      if item.part_number ≠ mof.part_number then .error .partNumberMismatch
      else if item.is_scanned_by_picker then .error .alreadyPicked
      else
        let items1 := scanUpdateItems item.id mof.id now db.items
        let cnt := pickedCount items1 mof.id
        let mofs1 :=
          if cnt = mof.quantity_requested then
            setMofStatus mof.id .siapSupply now db.mofs
          else if mof.status = .pending then
            setMofStatus mof.id .inProgress now db.mofs
          else db.mofs
        let pr : PickRecord := ⟨mof.id, item.id, pickedBy, now⟩
        .ok ({ db with
                items := items1
                mofs := mofs1
                pickRecords := db.pickRecords ++ [pr] },
             markPicked mof.id now item)

/-- `verify_item.ts`: find the MOF and item by serial, check the item is
bound to that MOF, was picked, and not yet verified, then mark it verified,
append a verification record, recount verified items and complete the MOF
when the count reaches `quantity_requested` (the handler compares with
`>=`). -/
def verifyItem (db : DB) (mofSerial itemSerial : String) (verifiedBy now : Nat) :
    Except VerifyError (DB × Item) :=
  match db.mofs.find? fun m => m.serial_number == mofSerial with
  | none => .error .mofNotFound
  | some mof =>
    match db.items.find? fun it => it.serial_number == itemSerial with
    | none => .error .itemNotFound
    | some item =>
      if item.mof_id ≠ some mof.id then .error .ownership
      else if item.is_scanned_by_picker = false then .error .notYetPicked
      else if item.is_scanned_by_requester then .error .alreadyVerified
      else
        let items1 := verifyUpdateItems item.id now db.items
        let cnt := verifiedCount items1 mof.id
        let mofs1 :=
          if mof.quantity_requested ≤ cnt then
            setMofStatus mof.id .completed now db.mofs
          else db.mofs
        let vr : VerificationRecord := ⟨mof.id, item.id, verifiedBy, now⟩
        .ok ({ db with
                items := items1
                mofs := mofs1
                verificationRecords := db.verificationRecords ++ [vr] },
             markVerified now item)

/-- Result shape of `get_mof_progress.ts`. -/
structure MofProgress where
  mof : Mof
  quantity_requested : Nat
  quantity_picked : Nat
  quantity_verified : Nat
  items_picked : List Item
  items_verified : List Item
deriving DecidableEq, Repr

/-- `get_mof_progress.ts`: fetch the MOF by id (returning `none` when
absent), fetch its items, filter by the two booleans; counts are the list
lengths.  Purely a read, the store is not touched. -/
def getMofProgress (db : DB) (mofId : Nat) : Option MofProgress :=
  match db.mofs.find? fun m => m.id == mofId with
  | none => none
  | some mof =>
    let items := db.items.filter fun it => it.mof_id == some mofId
    let ip := items.filter fun it => it.is_scanned_by_picker
    let iv := items.filter fun it => it.is_scanned_by_requester
    some ⟨mof, mof.quantity_requested, ip.length, iv.length, ip, iv⟩

/-- Modelled from the spec: `update_mof_status.ts` in the repository is only
a placeholder handler, so this follows §4.5 of the spec and the handler's
test suite — an unconditional administrative override that sets the MOF's
status and `updated_at`, failing with NotFound(mof) when no MOF with the id
exists, and returning the updated MOF. -/
def updateMofStatus (db : DB) (mofId : Nat) (st : MofStatus) (now : Nat) :
    Except UpdateMofError (DB × Mof) :=
  match db.mofs.find? fun m => m.id == mofId with
  | none => .error .mofNotFound
  | some mof =>
    .ok ({ db with mofs := setMofStatus mofId st now db.mofs },
         { mof with status := st, updated_at := now })

/-- Next id handed out by the serial primary-key column. -/
def nextItemId (items : List Item) : Nat :=
  items.foldr (fun it n => max (it.id + 1) n) 0

def nextMofId (mofs : List Mof) : Nat :=
  mofs.foldr (fun m n => max (m.id + 1) n) 0

def nextUserId (users : List User) : Nat :=
  users.foldr (fun u n => max (u.id + 1) n) 0

/-- `create_item.ts`: insert with both booleans false and no MOF reference;
the unique constraint on `items.serial_number` rejects a duplicate serial. -/
def createItem (db : DB) (partNumber supplier serialNumber : String)
    (now : Nat) : Except CreateItemError (DB × Item) :=
  if db.items.any fun it => it.serial_number == serialNumber then
    .error .duplicateSerial
  else
    let it : Item :=
      { id := nextItemId db.items, part_number := partNumber,
        supplier := supplier, serial_number := serialNumber,
        is_scanned_by_picker := false, is_scanned_by_requester := false,
        mof_id := none, picked_at := none, verified_at := none,
        created_at := now, updated_at := now }
    .ok ({ db with items := db.items ++ [it] }, it)

/-- `create_mof.ts`: check the creating user exists, insert with status
Pending.  The handler derives the serial number from the clock and a random
suffix; here it is a parameter and the unique constraint on
`mofs.serial_number` rejects a collision. -/
def createMof (db : DB) (serialNumber partNumber : String) (qty erd : Nat)
    (requesterName dept proj : String) (createdBy now : Nat) :
    Except CreateMofError (DB × Mof) :=
  if (db.users.any fun u => u.id == createdBy) = false then
    .error .userNotFound
  else if db.mofs.any fun m => m.serial_number == serialNumber then
    .error .duplicateSerial
  else
    let m : Mof :=
      { id := nextMofId db.mofs, serial_number := serialNumber,
        part_number := partNumber, quantity_requested := qty,
        expected_receiving_date := erd, requester_name := requesterName,
        department := dept, project := proj, status := .pending,
        created_by := createdBy, created_at := now, updated_at := now }
    .ok ({ db with mofs := db.mofs ++ [m] }, m)

/-- Modelled from the spec: `create_user.ts` in the repository is only a
placeholder handler; §4.5 of the spec says it persists the user and fails
with Conflict on a duplicate username or email (the unique constraints of
the `users` table). -/
def createUser (db : DB) (username email fullName : String) (role : Role)
    (now : Nat) : Except CreateUserError (DB × User) :=
  if db.users.any fun u => u.username == username then
    .error .duplicateUsername
  else if db.users.any fun u => u.email == email then
    .error .duplicateEmail
  else
    let u : User :=
      { id := nextUserId db.users, username := username, email := email,
        full_name := fullName, role := role, created_at := now,
        updated_at := now }
    .ok ({ db with users := db.users ++ [u] }, u)

/-- `get_mof_by_serial.ts`: first row with the serial, or null. -/
def getMofBySerial (db : DB) (serial : String) : Option Mof :=
  db.mofs.find? fun m => m.serial_number == serial

/-- `get_all_items.ts`: plain select with no ordering clause. -/
def getAllItems (db : DB) : List Item :=
  db.items

/-- Store after a scan attempt: the updated store on success, the unchanged
store when the handler throws (it throws before any write). -/
def scanStep (db : DB) (mofSerial itemSerial : String) (pickedBy now : Nat) :
    DB :=
  match scanItem db mofSerial itemSerial pickedBy now with
  | .ok (db', _) => db'
  | .error _ => db

/-- Store after a verification attempt, as for `scanStep`. -/
def verifyStep (db : DB) (mofSerial itemSerial : String)
    (verifiedBy now : Nat) : DB :=
  match verifyItem db mofSerial itemSerial verifiedBy now with
  | .ok (db', _) => db'
  | .error _ => db

/-- One request against the public interface (§6 of the spec). -/
inductive Op where
  | opCreateUser (username email fullName : String) (role : Role) (now : Nat)
  | opCreateMof (serialNumber partNumber : String) (qty erd : Nat)
      (requesterName dept proj : String) (createdBy now : Nat)
  | opCreateItem (partNumber supplier serialNumber : String) (now : Nat)
  | opScanItem (mofSerial itemSerial : String) (pickedBy now : Nat)
  | opVerifyItem (mofSerial itemSerial : String) (verifiedBy now : Nat)
  | opUpdateMofStatus (mofId : Nat) (st : MofStatus) (now : Nat)
  | opGetMofBySerial (serial : String)
  | opGetMofProgress (mofId : Nat)
  | opGetAllMofs
  | opGetUserMofs (userId : Nat)
  | opGetAllItems
deriving DecidableEq, Repr

/-- Effect of one request on the store; a failed precondition leaves the
store unchanged (every handler throws before writing), and the query
operations are read-only. -/
def applyOp (db : DB) : Op → DB
  | .opCreateUser u e f r n =>
    (match createUser db u e f r n with
     | .ok (db', _) => db'
     | .error _ => db)
  | .opCreateMof s p q erd rn d pj cb n =>
    (match createMof db s p q erd rn d pj cb n with
     | .ok (db', _) => db'
     | .error _ => db)
  | .opCreateItem p s sn n =>
    (match createItem db p s sn n with
     | .ok (db', _) => db'
     | .error _ => db)
  | .opScanItem ms its pb n => scanStep db ms its pb n
  | .opVerifyItem ms its vb n => verifyStep db ms its vb n
  | .opUpdateMofStatus mid st n =>
    (match updateMofStatus db mid st n with
     | .ok (db', _) => db'
     | .error _ => db)
  | .opGetMofBySerial _ => db
  | .opGetMofProgress _ => db
  | .opGetAllMofs => db
  | .opGetUserMofs _ => db
  | .opGetAllItems => db

/-- Store reached from the empty store by a sequence of requests. -/
def reach (ops : List Op) : DB :=
  ops.foldl applyOp emptyDB

/-- True only for the administrative status override. -/
def Op.isOverride : Op → Bool
  | .opUpdateMofStatus _ _ _ => true
  | _ => false

/-- True for the two engine operations. -/
def Op.isScanOrVerify : Op → Bool
  | .opScanItem _ _ _ _ => true
  | .opVerifyItem _ _ _ _ => true
  | _ => false

/-! ### Basic facts about the item / MOF updates -/

theorem markPicked_id (mid now : Nat) (it : Item) :
    (markPicked mid now it).id = it.id := rfl

theorem markVerified_id (now : Nat) (it : Item) :
    (markVerified now it).id = it.id := rfl

theorem find?_map_pres {α : Type} (g : α → α) (p : α → Bool)
    (hp : ∀ a, p (g a) = p a) (l : List α) :
    (l.map g).find? p = (l.find? p).map g := by
  rw [List.find?_map]
  have hpg : p ∘ g = p := funext hp
  rw [hpg]

theorem scanUpdateItems_ids (iid mid now : Nat) (l : List Item) :
    (scanUpdateItems iid mid now l).map Item.id = l.map Item.id := by
  unfold scanUpdateItems
  rw [List.map_map]
  apply List.map_congr_left
  intro a _
  by_cases h : a.id = iid <;> simp [h, markPicked_id]

theorem verifyUpdateItems_ids (iid now : Nat) (l : List Item) :
    (verifyUpdateItems iid now l).map Item.id = l.map Item.id := by
  unfold verifyUpdateItems
  rw [List.map_map]
  apply List.map_congr_left
  intro a _
  by_cases h : a.id = iid <;> simp [h, markVerified_id]

theorem setMofStatus_ids (mid : Nat) (st : MofStatus) (now : Nat)
    (l : List Mof) :
    (setMofStatus mid st now l).map Mof.id = l.map Mof.id := by
  unfold setMofStatus
  rw [List.map_map]
  apply List.map_congr_left
  intro a _
  by_cases h : a.id = mid <;> simp [h]

/-- Success shape of `scanItem`: the handler found the MOF and the item,
the preconditions held, and the result is exactly the mutation performed by
steps 4–6 of `scan_item.ts`. -/
theorem scanItem_ok_elim {db : DB} {ms its : String} {u now : Nat}
    {p : DB × Item} (h : scanItem db ms its u now = .ok p) :
    ∃ mof item,
      db.mofs.find? (fun m => m.serial_number == ms) = some mof ∧
      db.items.find? (fun it => it.serial_number == its) = some item ∧
      item.part_number = mof.part_number ∧
      item.is_scanned_by_picker = false ∧
      p.2 = markPicked mof.id now item ∧
      p.1.users = db.users ∧
      p.1.items = scanUpdateItems item.id mof.id now db.items ∧
      p.1.pickRecords = db.pickRecords ++ [⟨mof.id, item.id, u, now⟩] ∧
      p.1.verificationRecords = db.verificationRecords ∧
      p.1.mofs =
        (if pickedCount (scanUpdateItems item.id mof.id now db.items) mof.id
              = mof.quantity_requested then
           setMofStatus mof.id .siapSupply now db.mofs
         else if mof.status = .pending then
           setMofStatus mof.id .inProgress now db.mofs
         else db.mofs) := by
  unfold scanItem at h
  cases hm : db.mofs.find? fun m => m.serial_number == ms with
  | none => rw [hm] at h; exact absurd h (by simp)
  | some mof =>
    rw [hm] at h
    cases hi : db.items.find? fun it => it.serial_number == its with
    | none => rw [hi] at h; exact absurd h (by simp)
    | some item =>
      rw [hi] at h
      simp only at h
      split at h
      · exact absurd h (by simp)
      · split at h
        · exact absurd h (by simp)
        · rename_i hpart hpick
          rw [Except.ok.injEq] at h
          subst h
          refine ⟨mof, item, rfl, rfl, not_not.mp hpart, ?_, rfl, rfl, rfl,
            rfl, rfl, rfl⟩
          simpa using hpick

/-- Success shape of `verifyItem`, as for `scanItem_ok_elim`. -/
theorem verifyItem_ok_elim {db : DB} {ms its : String} {u now : Nat}
    {p : DB × Item} (h : verifyItem db ms its u now = .ok p) :
    ∃ mof item,
      db.mofs.find? (fun m => m.serial_number == ms) = some mof ∧
      db.items.find? (fun it => it.serial_number == its) = some item ∧
      item.mof_id = some mof.id ∧
      item.is_scanned_by_picker = true ∧
      item.is_scanned_by_requester = false ∧
      p.2 = markVerified now item ∧
      p.1.users = db.users ∧
      p.1.items = verifyUpdateItems item.id now db.items ∧
      p.1.pickRecords = db.pickRecords ∧
      p.1.verificationRecords =
        db.verificationRecords ++ [⟨mof.id, item.id, u, now⟩] ∧
      p.1.mofs =
        (if mof.quantity_requested
              ≤ verifiedCount (verifyUpdateItems item.id now db.items) mof.id
         then setMofStatus mof.id .completed now db.mofs
         else db.mofs) := by
  unfold verifyItem at h
  cases hm : db.mofs.find? fun m => m.serial_number == ms with
  | none => rw [hm] at h; exact absurd h (by simp)
  | some mof =>
    rw [hm] at h
    cases hi : db.items.find? fun it => it.serial_number == its with
    | none => rw [hi] at h; exact absurd h (by simp)
    | some item =>
      rw [hi] at h
      simp only at h
      split at h
      · exact absurd h (by simp)
      · split at h
        · exact absurd h (by simp)
        · split at h
          · exact absurd h (by simp)
          · rename_i hown hpick hver
            rw [Except.ok.injEq] at h
            subst h
            refine ⟨mof, item, rfl, rfl, not_not.mp hown, ?_, ?_, rfl, rfl,
              rfl, rfl, rfl, rfl⟩
            · simpa using hpick
            · simpa using hver

/-! ### Counting lemmas -/

theorem pickedCount_eq_countP (items : List Item) (mid : Nat) :
    pickedCount items mid
      = items.countP fun it => it.mof_id == some mid && it.is_scanned_by_picker :=
  (List.countP_eq_length_filter _ _).symm

theorem verifiedCount_eq_countP (items : List Item) (mid : Nat) :
    verifiedCount items mid
      = items.countP fun it => it.mof_id == some mid && it.is_scanned_by_requester :=
  (List.countP_eq_length_filter _ _).symm

/-- A scan never lowers any MOF's picked count, provided every row it
touches (same id as the scanned item) was still unpicked. -/
theorem pickedCount_le_scanUpdate (iid mid now : Nat) (l : List Item)
    (hun : ∀ a ∈ l, a.id = iid → a.is_scanned_by_picker = false)
    (mid' : Nat) :
    pickedCount l mid' ≤ pickedCount (scanUpdateItems iid mid now l) mid' := by
  rw [pickedCount_eq_countP, pickedCount_eq_countP]
  unfold scanUpdateItems
  rw [List.countP_map]
  apply List.countP_mono_left
  intro a ha hpa
  by_cases h : a.id = iid
  · rw [hun a ha h] at hpa
    simp at hpa
  · simpa [Function.comp, h] using hpa

/-- With unique item ids, scanning an unpicked item adds exactly one to the
picked count of the MOF it is bound to. -/
theorem pickedCount_scanUpdate_self (iid mid now : Nat) (l : List Item)
    (hnd : (l.map Item.id).Nodup) (item : Item) (hmem : item ∈ l)
    (hid : item.id = iid) (hun : item.is_scanned_by_picker = false) :
    pickedCount (scanUpdateItems iid mid now l) mid = pickedCount l mid + 1 := by
  induction l with
  | nil => cases hmem
  | cons a l ih =>
    rw [List.map_cons, List.nodup_cons] at hnd
    rw [pickedCount_eq_countP, pickedCount_eq_countP] at *
    unfold scanUpdateItems
    rw [List.map_cons, List.countP_cons, List.countP_cons]
    cases List.mem_cons.mp hmem with
    | inl hia =>
      subst hia
      have hrest : ∀ b ∈ l, b.id ≠ iid := by
        intro b hb hbid
        exact hnd.1 (hid ▸ hbid ▸ List.mem_map_of_mem Item.id hb)
      have hmap : l.map (fun it => if it.id = iid then markPicked mid now it else it) = l := by
        rw [List.map_congr_left fun b hb => if_neg (hrest b hb)]
        exact List.map_id l
      rw [hmap, if_pos hid]
      simp [markPicked, hun]
    | inr hmem' =>
      have haid : a.id ≠ iid := by
        intro h
        exact hnd.1 (h ▸ hid ▸ List.mem_map_of_mem Item.id hmem')
      rw [if_neg haid]
      have := ih hnd.2 hmem'
      unfold scanUpdateItems at this
      omega

/-- A verification changes neither `mof_id` nor `is_scanned_by_picker`, so
picked counts are untouched. -/
theorem pickedCount_verifyUpdate (iid now : Nat) (l : List Item) (mid : Nat) :
    pickedCount (verifyUpdateItems iid now l) mid = pickedCount l mid := by
  rw [pickedCount_eq_countP, pickedCount_eq_countP]
  unfold verifyUpdateItems
  rw [List.countP_map]
  apply List.countP_congr
  intro a _
  by_cases h : a.id = iid <;> simp [Function.comp, h, markVerified]

/-- Appending an unassigned item leaves every picked count unchanged. -/
theorem pickedCount_append_unassigned (l : List Item) (it : Item)
    (h : it.mof_id = none) (mid : Nat) :
    pickedCount (l ++ [it]) mid = pickedCount l mid := by
  rw [pickedCount_eq_countP, pickedCount_eq_countP, List.countP_append]
  simp [h]

/-- When every verified item of a list is also picked, the verified count
for any MOF is bounded by its picked count. -/
theorem verifiedCount_le_pickedCount (l : List Item) (mid : Nat)
    (h : ∀ a ∈ l, a.is_scanned_by_requester = true →
          a.is_scanned_by_picker = true) :
    verifiedCount l mid ≤ pickedCount l mid := by
  rw [verifiedCount_eq_countP, pickedCount_eq_countP]
  apply List.countP_mono_left
  intro a ha hpa
  rw [Bool.and_eq_true] at hpa ⊢
  exact ⟨hpa.1, h a ha hpa.2⟩

/-! ### Success shapes of the lifecycle operations -/

theorem createItem_ok_elim {db : DB} {pn sup sn : String} {now : Nat}
    {p : DB × Item} (h : createItem db pn sup sn now = .ok p) :
    p.1.users = db.users ∧ p.1.mofs = db.mofs ∧
    p.1.pickRecords = db.pickRecords ∧
    p.1.verificationRecords = db.verificationRecords ∧
    p.1.items = db.items ++ [p.2] ∧
    p.2.id = nextItemId db.items ∧
    p.2.is_scanned_by_picker = false ∧
    p.2.is_scanned_by_requester = false ∧
    p.2.mof_id = none := by
  unfold createItem at h
  split at h
  · exact absurd h (by simp)
  · rw [Except.ok.injEq] at h
    subst h
    exact ⟨rfl, rfl, rfl, rfl, rfl, rfl, rfl, rfl, rfl⟩

theorem createMof_ok_elim {db : DB} {sn pn : String} {qty erd : Nat}
    {rn d pj : String} {cb now : Nat} {p : DB × Mof}
    (h : createMof db sn pn qty erd rn d pj cb now = .ok p) :
    p.1.users = db.users ∧ p.1.items = db.items ∧
    p.1.pickRecords = db.pickRecords ∧
    p.1.verificationRecords = db.verificationRecords ∧
    p.1.mofs = db.mofs ++ [p.2] ∧
    p.2.id = nextMofId db.mofs ∧
    p.2.status = .pending ∧
    p.2.quantity_requested = qty := by
  unfold createMof at h
  split at h
  · exact absurd h (by simp)
  · split at h
    · exact absurd h (by simp)
    · rw [Except.ok.injEq] at h
      subst h
      exact ⟨rfl, rfl, rfl, rfl, rfl, rfl, rfl, rfl⟩

theorem createUser_ok_elim {db : DB} {un em fn : String} {r : Role}
    {now : Nat} {p : DB × User}
    (h : createUser db un em fn r now = .ok p) :
    p.1.mofs = db.mofs ∧ p.1.items = db.items ∧
    p.1.pickRecords = db.pickRecords ∧
    p.1.verificationRecords = db.verificationRecords ∧
    p.1.users = db.users ++ [p.2] := by
  unfold createUser at h
  split at h
  · exact absurd h (by simp)
  · split at h
    · exact absurd h (by simp)
    · rw [Except.ok.injEq] at h
      subst h
      exact ⟨rfl, rfl, rfl, rfl, rfl⟩

theorem updateMofStatus_ok_elim {db : DB} {mid : Nat} {st : MofStatus}
    {now : Nat} {p : DB × Mof} (h : updateMofStatus db mid st now = .ok p) :
    p.1.users = db.users ∧ p.1.items = db.items ∧
    p.1.pickRecords = db.pickRecords ∧
    p.1.verificationRecords = db.verificationRecords ∧
    p.1.mofs = setMofStatus mid st now db.mofs := by
  unfold updateMofStatus at h
  cases hm : db.mofs.find? fun m => m.id == mid with
  | none => rw [hm] at h; exact absurd h (by simp)
  | some mof =>
    rw [hm] at h
    rw [Except.ok.injEq] at h
    subst h
    exact ⟨rfl, rfl, rfl, rfl, rfl⟩

theorem mem_lt_nextItemId {l : List Item} {it : Item} (h : it ∈ l) :
    it.id < nextItemId l := by
  induction l with
  | nil => cases h
  | cons a l ih =>
    have : nextItemId (a :: l) = max (a.id + 1) (nextItemId l) := rfl
    rw [this]
    cases List.mem_cons.mp h with
    | inl ha => subst ha; omega
    | inr hl => have := ih hl; omega

theorem mem_lt_nextMofId {l : List Mof} {m : Mof} (h : m ∈ l) :
    m.id < nextMofId l := by
  induction l with
  | nil => cases h
  | cons a l ih =>
    have : nextMofId (a :: l) = max (a.id + 1) (nextMofId l) := rfl
    rw [this]
    cases List.mem_cons.mp h with
    | inl ha => subst ha; omega
    | inr hl => have := ih hl; omega

/-! ### Item invariants (spec §3, Item) -/

/-- The per-item invariant of §3: verified implies picked implies bound,
and — holding in every reachable store because only a scan sets the MOF
reference — bound implies picked. -/
def ItemOk (it : Item) : Prop :=
  (it.is_scanned_by_requester = true → it.is_scanned_by_picker = true) ∧
  (it.is_scanned_by_picker = true → it.mof_id ≠ none) ∧
  (it.mof_id ≠ none → it.is_scanned_by_picker = true)

/-- Store-level item invariant: every row satisfies `ItemOk` and the
primary key of the `items` table is honoured. -/
def ItemWF (db : DB) : Prop :=
  (∀ it ∈ db.items, ItemOk it) ∧ (db.items.map Item.id).Nodup

theorem itemWF_emptyDB : ItemWF emptyDB :=
  ⟨fun _ h => absurd h (List.not_mem_nil _), List.nodup_nil⟩

theorem itemWF_scanStep (db : DB) (ms its : String) (u now : Nat)
    (h : ItemWF db) : ItemWF (scanStep db ms its u now) := by
  unfold scanStep
  cases hs : scanItem db ms its u now with
  | error e => exact h
  | ok p =>
    obtain ⟨mof, item, hm, hi, hpart, hunp, hit, hu, hitems, hpr, hvr, hmofs⟩ :=
      scanItem_ok_elim hs
    constructor
    · intro it' hit'
      rw [hitems] at hit'
      unfold scanUpdateItems at hit'
      obtain ⟨a, ha, rfl⟩ := List.mem_map.mp hit'
      by_cases hid : a.id = item.id
      · rw [if_pos hid]
        exact ⟨fun _ => rfl, fun _ => by simp [markPicked], fun _ => rfl⟩
      · rw [if_neg hid]
        exact h.1 a ha
    · rw [hitems, scanUpdateItems_ids]
      exact h.2

theorem itemWF_verifyStep (db : DB) (ms its : String) (u now : Nat)
    (h : ItemWF db) : ItemWF (verifyStep db ms its u now) := by
  unfold verifyStep
  cases hs : verifyItem db ms its u now with
  | error e => exact h
  | ok p =>
    obtain ⟨mof, item, hm, hi, hown, hpick, hver, hit, hu, hitems, hpr, hvr,
      hmofs⟩ := verifyItem_ok_elim hs
    constructor
    · intro it' hit'
      rw [hitems] at hit'
      unfold verifyUpdateItems at hit'
      obtain ⟨a, ha, rfl⟩ := List.mem_map.mp hit'
      by_cases hid : a.id = item.id
      · have haitem : a = item :=
          List.inj_on_of_nodup_map h.2 ha (List.mem_of_find?_eq_some hi) hid
        rw [if_pos hid, haitem]
        refine ⟨fun _ => hpick, fun _ => ?_, fun _ => hpick⟩
        show item.mof_id ≠ none
        rw [hown]
        simp
      · rw [if_neg hid]
        exact h.1 a ha
    · rw [hitems, verifyUpdateItems_ids]
      exact h.2

theorem itemWF_applyOp (db : DB) (op : Op) (h : ItemWF db) :
    ItemWF (applyOp db op) := by
  cases op with
  | opCreateUser u e f r n =>
    show ItemWF (match createUser db u e f r n with
      | .ok (db', _) => db' | .error _ => db)
    cases hc : createUser db u e f r n with
    | error err => exact h
    | ok p =>
      obtain ⟨hm, hi, hp, hv, hu⟩ := createUser_ok_elim hc
      exact ⟨hi ▸ h.1, hi ▸ h.2⟩
  | opCreateMof s pn q erd rn d pj cb n =>
    show ItemWF (match createMof db s pn q erd rn d pj cb n with
      | .ok (db', _) => db' | .error _ => db)
    cases hc : createMof db s pn q erd rn d pj cb n with
    | error err => exact h
    | ok p =>
      obtain ⟨hu, hi, hp, hv, hm, _, _, _⟩ := createMof_ok_elim hc
      exact ⟨hi ▸ h.1, hi ▸ h.2⟩
  | opCreateItem pn sup sn n =>
    show ItemWF (match createItem db pn sup sn n with
      | .ok (db', _) => db' | .error _ => db)
    cases hc : createItem db pn sup sn n with
    | error err => exact h
    | ok p =>
      obtain ⟨hu, hm, hp, hv, hitems, hid, hsp, hsr, hnone⟩ :=
        createItem_ok_elim hc
      constructor
      · rw [hitems]
        intro it' hit'
        cases List.mem_append.mp hit' with
        | inl ha => exact h.1 it' ha
        | inr hb =>
          rw [List.mem_singleton] at hb
          subst hb
          refine ⟨fun hh => ?_, fun hh => ?_, fun hh => ?_⟩
          · rw [hsr] at hh; cases hh
          · rw [hsp] at hh; cases hh
          · exact absurd hnone hh
      · rw [hitems, List.map_append, List.map_singleton]
        apply List.Nodup.append h.2 (List.nodup_singleton _)
        intro x hx hy
        rw [List.mem_singleton] at hy
        obtain ⟨a, ha, rfl⟩ := List.mem_map.mp hx
        have hlt := mem_lt_nextItemId ha
        rw [hy, hid] at hlt
        omega
  | opScanItem ms its pb n => exact itemWF_scanStep db ms its pb n h
  | opVerifyItem ms its vb n => exact itemWF_verifyStep db ms its vb n h
  | opUpdateMofStatus mid st n =>
    show ItemWF (match updateMofStatus db mid st n with
      | .ok (db', _) => db' | .error _ => db)
    cases hc : updateMofStatus db mid st n with
    | error err => exact h
    | ok p =>
      obtain ⟨hu, hi, hp, hv, hm⟩ := updateMofStatus_ok_elim hc
      exact ⟨hi ▸ h.1, hi ▸ h.2⟩
  | opGetMofBySerial s => exact h
  | opGetMofProgress mid => exact h
  | opGetAllMofs => exact h
  | opGetUserMofs uid => exact h
  | opGetAllItems => exact h

theorem itemWF_reach (ops : List Op) : ItemWF (reach ops) := by
  unfold reach
  have hgen : ∀ (l : List Op) (db : DB), ItemWF db →
      ItemWF (l.foldl applyOp db) := by
    intro l
    induction l with
    | nil => intro db hdb; exact hdb
    | cons o l ih => intro db hdb; exact ih (applyOp db o) (itemWF_applyOp db o hdb)
  exact hgen ops emptyDB itemWF_emptyDB

/-- One operation never changes an already-set MOF reference; it only moves
each item row to a row with the same id and the same reference. -/
theorem mofRef_step (db : DB) (op : Op) (h : ItemWF db) {it : Item}
    (hit : it ∈ db.items) {x : Nat} (hx : it.mof_id = some x) :
    ∃ it' ∈ (applyOp db op).items, it'.id = it.id ∧ it'.mof_id = some x := by
  cases op with
  | opCreateUser u e f r n =>
    show ∃ it' ∈ (match createUser db u e f r n with
      | .ok (db', _) => db' | .error _ => db).items, _ ∧ _
    cases hc : createUser db u e f r n with
    | error err => exact ⟨it, hit, rfl, hx⟩
    | ok p =>
      obtain ⟨hm, hi, hp, hv, hu⟩ := createUser_ok_elim hc
      exact ⟨it, hi ▸ hit, rfl, hx⟩
  | opCreateMof s pn q erd rn d pj cb n =>
    show ∃ it' ∈ (match createMof db s pn q erd rn d pj cb n with
      | .ok (db', _) => db' | .error _ => db).items, _ ∧ _
    cases hc : createMof db s pn q erd rn d pj cb n with
    | error err => exact ⟨it, hit, rfl, hx⟩
    | ok p =>
      obtain ⟨hu, hi, hp, hv, hm, _, _, _⟩ := createMof_ok_elim hc
      exact ⟨it, hi ▸ hit, rfl, hx⟩
  | opCreateItem pn sup sn n =>
    show ∃ it' ∈ (match createItem db pn sup sn n with
      | .ok (db', _) => db' | .error _ => db).items, _ ∧ _
    cases hc : createItem db pn sup sn n with
    | error err => exact ⟨it, hit, rfl, hx⟩
    | ok p =>
      obtain ⟨hu, hm, hp, hv, hitems, hid, hsp, hsr, hnone⟩ :=
        createItem_ok_elim hc
      exact ⟨it, hitems ▸ List.mem_append_left _ hit, rfl, hx⟩
  | opScanItem ms its pb n =>
    show ∃ it' ∈ (scanStep db ms its pb n).items, _ ∧ _
    unfold scanStep
    cases hs : scanItem db ms its pb n with
    | error e => exact ⟨it, hit, rfl, hx⟩
    | ok p =>
      obtain ⟨mof, item, hm, hi, hpart, hunp, hitem, hu, hitems, hpr, hvr,
        hmofs⟩ := scanItem_ok_elim hs
      have hne : it.id ≠ item.id := by
        intro heq
        have : it = item :=
          List.inj_on_of_nodup_map h.2 hit (List.mem_of_find?_eq_some hi) heq
        subst this
        have hpicked : it.is_scanned_by_picker = true :=
          (h.1 it hit).2.2 (by rw [hx]; simp)
        rw [hunp] at hpicked
        cases hpicked
      refine ⟨it, ?_, rfl, hx⟩
      rw [hitems]
      unfold scanUpdateItems
      have hfix : (fun a => if a.id = item.id then markPicked mof.id n a else a) it
          = it := if_neg hne
      exact hfix ▸ List.mem_map_of_mem _ hit
  | opVerifyItem ms its vb n =>
    show ∃ it' ∈ (verifyStep db ms its vb n).items, _ ∧ _
    unfold verifyStep
    cases hs : verifyItem db ms its vb n with
    | error e => exact ⟨it, hit, rfl, hx⟩
    | ok p =>
      obtain ⟨mof, item, hm, hi, hown, hpick, hver, hitem, hu, hitems, hpr,
        hvr, hmofs⟩ := verifyItem_ok_elim hs
      refine ⟨(fun a => if a.id = item.id then markVerified n a else a) it,
        ?_, ?_, ?_⟩
      · rw [hitems]
        unfold verifyUpdateItems
        exact List.mem_map_of_mem _ hit
      · by_cases hid : it.id = item.id <;> simp [hid, markVerified]
      · by_cases hid : it.id = item.id <;> simp [hid, markVerified, hx]
  | opUpdateMofStatus mid st n =>
    show ∃ it' ∈ (match updateMofStatus db mid st n with
      | .ok (db', _) => db' | .error _ => db).items, _ ∧ _
    cases hc : updateMofStatus db mid st n with
    | error err => exact ⟨it, hit, rfl, hx⟩
    | ok p =>
      obtain ⟨hu, hi, hp, hv, hm⟩ := updateMofStatus_ok_elim hc
      exact ⟨it, hi ▸ hit, rfl, hx⟩
  | opGetMofBySerial s => exact ⟨it, hit, rfl, hx⟩
  | opGetMofProgress mid => exact ⟨it, hit, rfl, hx⟩
  | opGetAllMofs => exact ⟨it, hit, rfl, hx⟩
  | opGetUserMofs uid => exact ⟨it, hit, rfl, hx⟩
  | opGetAllItems => exact ⟨it, hit, rfl, hx⟩

/-- A set MOF reference survives any further operation sequence. -/
theorem mofRef_chain (l : List Op) (db : DB) (h : ItemWF db) {it : Item}
    (hit : it ∈ db.items) {x : Nat} (hx : it.mof_id = some x) :
    ∀ it' ∈ (l.foldl applyOp db).items, it'.id = it.id →
      it'.mof_id = some x := by
  induction l generalizing db it with
  | nil =>
    intro it' hit' hid
    have : it' = it := List.inj_on_of_nodup_map h.2 hit' hit hid
    rw [this]
    exact hx
  | cons o l ih =>
    intro it' hit' hid
    obtain ⟨it1, hmem1, hid1, hx1⟩ := mofRef_step db o h hit hx
    exact ih (applyOp db o) (itemWF_applyOp db o h) hmem1 hx1 it' hit'
      (hid.trans hid1.symm)

/-! ### MOF status lifecycle invariants (spec §3/§4.3) -/

theorem rank_le_three (s : MofStatus) : s.rank ≤ 3 := by
  cases s <;> simp [MofStatus.rank]

/-- In stores reached without the administrative override, a MOF that shows
`MOF siap Supply` or `Completed` has at least `quantity_requested` picked
items bound to it. -/
def countWF (db : DB) : Prop :=
  ∀ m ∈ db.mofs, (m.status = .siapSupply ∨ m.status = .completed) →
    m.quantity_requested ≤ pickedCount db.items m.id

/-- Well-formedness of stores reachable through the scan/verify lifecycle
(no administrative override). -/
def LifeWF (db : DB) : Prop :=
  ItemWF db ∧ (db.mofs.map Mof.id).Nodup ∧ countWF db

theorem lifeWF_emptyDB : LifeWF emptyDB :=
  ⟨itemWF_emptyDB, List.nodup_nil, fun _ h => absurd h (List.not_mem_nil _)⟩

theorem setMofStatus_mem {mid : Nat} {st : MofStatus} {now : Nat}
    {l : List Mof} {m' : Mof} (h : m' ∈ setMofStatus mid st now l) :
    ∃ m0 ∈ l, m'.id = m0.id ∧
      ((m0.id = mid ∧ m' = { m0 with status := st, updated_at := now }) ∨
       (m0.id ≠ mid ∧ m' = m0)) := by
  unfold setMofStatus at h
  obtain ⟨m0, hm0, rfl⟩ := List.mem_map.mp h
  by_cases hid : m0.id = mid
  · exact ⟨m0, hm0, by rw [if_pos hid], Or.inl ⟨hid, if_pos hid⟩⟩
  · exact ⟨m0, hm0, by rw [if_neg hid], Or.inr ⟨hid, if_neg hid⟩⟩

theorem scan_untouched_unpicked {db : DB}
    (h2 : (db.items.map Item.id).Nodup) {item : Item}
    (hitem : item ∈ db.items) (hunp : item.is_scanned_by_picker = false) :
    ∀ a ∈ db.items, a.id = item.id → a.is_scanned_by_picker = false := by
  intro a ha hid
  rw [List.inj_on_of_nodup_map h2 ha hitem hid]
  exact hunp

theorem lifeWF_scanStep (db : DB) (ms its : String) (u now : Nat)
    (h : LifeWF db) : LifeWF (scanStep db ms its u now) := by
  obtain ⟨hitem, hmnd, hcnt⟩ := h
  have hWFstep := itemWF_scanStep db ms its u now hitem
  unfold scanStep at hWFstep ⊢
  cases hs : scanItem db ms its u now with
  | error e => exact ⟨hitem, hmnd, hcnt⟩
  | ok p =>
    rw [hs] at hWFstep
    obtain ⟨mof, item, hm, hi, hpart, hunp, hit, hu, hitems, hpr, hvr,
      hmofs⟩ := scanItem_ok_elim hs
    have hmofmem : mof ∈ db.mofs := List.mem_of_find?_eq_some hm
    have hitemmem : item ∈ db.items := List.mem_of_find?_eq_some hi
    have huntouched := scan_untouched_unpicked hitem.2 hitemmem hunp
    have hmono : ∀ mid', pickedCount db.items mid' ≤ pickedCount p.1.items mid' := by
      intro mid'
      rw [hitems]
      exact pickedCount_le_scanUpdate item.id mof.id now db.items huntouched mid'
    refine ⟨hWFstep, ?_, ?_⟩
    · rw [hmofs]
      split
      · rw [setMofStatus_ids]; exact hmnd
      · split
        · rw [setMofStatus_ids]; exact hmnd
        · exact hmnd
    · intro m' hm' hst
      rw [hmofs] at hm'
      split at hm'
      · rename_i hcq
        obtain ⟨m0, hm0, hid0, hcase⟩ := setMofStatus_mem hm'
        cases hcase with
        | inl hc =>
          have hm0mof : m0 = mof :=
            List.inj_on_of_nodup_map hmnd hm0 hmofmem hc.1
          rw [hc.2, hm0mof]
          show mof.quantity_requested ≤ pickedCount p.1.items mof.id
          rw [hitems]
          omega
        | inr hc =>
          rw [hc.2]
          rw [hc.2] at hst
          exact le_trans (hcnt m0 hm0 hst) (hmono m0.id)
      · rename_i hcq
        split at hm'
        · obtain ⟨m0, hm0, hid0, hcase⟩ := setMofStatus_mem hm'
          cases hcase with
          | inl hc =>
            rw [hc.2] at hst
            simp at hst
          | inr hc =>
            rw [hc.2]
            rw [hc.2] at hst
            exact le_trans (hcnt m0 hm0 hst) (hmono m0.id)
        · exact le_trans (hcnt m' hm' hst) (hmono m'.id)

theorem lifeWF_verifyStep (db : DB) (ms its : String) (u now : Nat)
    (h : LifeWF db) : LifeWF (verifyStep db ms its u now) := by
  obtain ⟨hitem, hmnd, hcnt⟩ := h
  have hWFstep := itemWF_verifyStep db ms its u now hitem
  unfold verifyStep at hWFstep ⊢
  cases hs : verifyItem db ms its u now with
  | error e => exact ⟨hitem, hmnd, hcnt⟩
  | ok p =>
    rw [hs] at hWFstep
    obtain ⟨mof, item, hm, hi, hown, hpick, hver, hit, hu, hitems, hpr, hvr,
      hmofs⟩ := verifyItem_ok_elim hs
    have hmofmem : mof ∈ db.mofs := List.mem_of_find?_eq_some hm
    have hpc : ∀ mid', pickedCount p.1.items mid' = pickedCount db.items mid' := by
      intro mid'
      rw [hitems]
      exact pickedCount_verifyUpdate item.id now db.items mid'
    refine ⟨hWFstep, ?_, ?_⟩
    · rw [hmofs]
      split
      · rw [setMofStatus_ids]; exact hmnd
      · exact hmnd
    · intro m' hm' hst
      rw [hmofs] at hm'
      split at hm'
      · rename_i hq
        obtain ⟨m0, hm0, hid0, hcase⟩ := setMofStatus_mem hm'
        cases hcase with
        | inl hc =>
          have hm0mof : m0 = mof :=
            List.inj_on_of_nodup_map hmnd hm0 hmofmem hc.1
          rw [hc.2, hm0mof]
          show mof.quantity_requested ≤ pickedCount p.1.items mof.id
          have hvp : verifiedCount p.1.items mof.id ≤ pickedCount p.1.items mof.id :=
            verifiedCount_le_pickedCount p.1.items mof.id
              (fun a ha hv => (hWFstep.1 a ha).1 hv)
          rw [hitems] at hvp ⊢
          omega
        | inr hc =>
          rw [hc.2]
          rw [hc.2] at hst
          rw [hpc m0.id]
          exact hcnt m0 hm0 hst
      · rw [hpc m'.id]
        exact hcnt m' hm' hst

theorem lifeWF_applyOp (db : DB) (op : Op) (hov : op.isOverride = false)
    (h : LifeWF db) : LifeWF (applyOp db op) := by
  obtain ⟨hitem, hmnd, hcnt⟩ := h
  cases op with
  | opCreateUser u e f r n =>
    have hWFstep := itemWF_applyOp db (.opCreateUser u e f r n) hitem
    show LifeWF (match createUser db u e f r n with
      | .ok (db', _) => db' | .error _ => db)
    cases hc : createUser db u e f r n with
    | error err => exact ⟨hitem, hmnd, hcnt⟩
    | ok p =>
      obtain ⟨hm, hi, hp, hv, hu⟩ := createUser_ok_elim hc
      exact ⟨⟨hi ▸ hitem.1, hi ▸ hitem.2⟩, hm ▸ hmnd,
        fun m' hm' hst => hi ▸ hcnt m' (hm ▸ hm') hst⟩
  | opCreateMof s pn q erd rn d pj cb n =>
    show LifeWF (match createMof db s pn q erd rn d pj cb n with
      | .ok (db', _) => db' | .error _ => db)
    cases hc : createMof db s pn q erd rn d pj cb n with
    | error err => exact ⟨hitem, hmnd, hcnt⟩
    | ok p =>
      obtain ⟨hu, hi, hp, hv, hmofs, hid, hst0, hq⟩ := createMof_ok_elim hc
      refine ⟨⟨hi ▸ hitem.1, hi ▸ hitem.2⟩, ?_, ?_⟩
      · rw [hmofs, List.map_append, List.map_singleton]
        apply List.Nodup.append hmnd (List.nodup_singleton _)
        intro x hx hy
        rw [List.mem_singleton] at hy
        obtain ⟨a, ha, rfl⟩ := List.mem_map.mp hx
        have hlt := mem_lt_nextMofId ha
        rw [hy, hid] at hlt
        omega
      · intro m' hm' hst
        rw [hmofs] at hm'
        cases List.mem_append.mp hm' with
        | inl ha => exact hi ▸ hcnt m' ha hst
        | inr hb =>
          rw [List.mem_singleton] at hb
          subst hb
          rw [hst0] at hst
          simp at hst
  | opCreateItem pn sup sn n =>
    have hWFstep := itemWF_applyOp db (.opCreateItem pn sup sn n) hitem
    show LifeWF (match createItem db pn sup sn n with
      | .ok (db', _) => db' | .error _ => db)
    cases hc : createItem db pn sup sn n with
    | error err => exact ⟨hitem, hmnd, hcnt⟩
    | ok p =>
      have hWF1 : ItemWF p.1 := by
        have h0 : ItemWF (match createItem db pn sup sn n with
          | .ok (db', _) => db' | .error _ => db) := hWFstep
        rw [hc] at h0
        exact h0
      obtain ⟨hu, hm, hp, hv, hitems, hid, hsp, hsr, hnone⟩ :=
        createItem_ok_elim hc
      refine ⟨hWF1, hm ▸ hmnd, ?_⟩
      intro m' hm' hst
      rw [hitems, pickedCount_append_unassigned db.items p.2 hnone m'.id]
      exact hcnt m' (hm ▸ hm') hst
  | opScanItem ms its pb n =>
    exact lifeWF_scanStep db ms its pb n ⟨hitem, hmnd, hcnt⟩
  | opVerifyItem ms its vb n =>
    exact lifeWF_verifyStep db ms its vb n ⟨hitem, hmnd, hcnt⟩
  | opUpdateMofStatus mid st n => simp [Op.isOverride] at hov
  | opGetMofBySerial s => exact ⟨hitem, hmnd, hcnt⟩
  | opGetMofProgress mid => exact ⟨hitem, hmnd, hcnt⟩
  | opGetAllMofs => exact ⟨hitem, hmnd, hcnt⟩
  | opGetUserMofs uid => exact ⟨hitem, hmnd, hcnt⟩
  | opGetAllItems => exact ⟨hitem, hmnd, hcnt⟩

theorem lifeWF_reach (ops : List Op)
    (hops : ∀ op ∈ ops, op.isOverride = false) : LifeWF (reach ops) := by
  unfold reach
  have hgen : ∀ (l : List Op) (db : DB), (∀ op ∈ l, op.isOverride = false) →
      LifeWF db → LifeWF (l.foldl applyOp db) := by
    intro l
    induction l with
    | nil => intro db _ hdb; exact hdb
    | cons o l ih =>
      intro db hl hdb
      exact ih (applyOp db o) (fun op hop => hl op (List.mem_cons_of_mem o hop))
        (lifeWF_applyOp db o (hl o (List.mem_cons_self o l)) hdb)
  exact hgen ops emptyDB hops lifeWF_emptyDB

/-- A scan from a well-formed lifecycle store never lowers any MOF's status
and never leaves `Completed`. -/
theorem scan_status_monotone (db : DB) (ms its : String) (u now : Nat)
    (h : LifeWF db) (m : Mof) (hm : m ∈ db.mofs) (m' : Mof)
    (hm' : m' ∈ (scanStep db ms its u now).mofs) (hid : m'.id = m.id) :
    m.status.rank ≤ m'.status.rank ∧
      (m.status = .completed → m'.status = .completed) := by
  obtain ⟨hitem, hmnd, hcnt⟩ := h
  unfold scanStep at hm'
  cases hs : scanItem db ms its u now with
  | error e =>
    rw [hs] at hm'
    have : m' = m := List.inj_on_of_nodup_map hmnd hm' hm hid
    rw [this]
    exact ⟨le_refl _, fun hc => hc⟩
  | ok p =>
    rw [hs] at hm'
    obtain ⟨mof, item, hmf, hif, hpart, hunp, hit, hu, hitems, hpr, hvr,
      hmofs⟩ := scanItem_ok_elim hs
    have hmofmem : mof ∈ db.mofs := List.mem_of_find?_eq_some hmf
    have hitemmem : item ∈ db.items := List.mem_of_find?_eq_some hif
    have hself : pickedCount (scanUpdateItems item.id mof.id now db.items) mof.id
        = pickedCount db.items mof.id + 1 :=
      pickedCount_scanUpdate_self item.id mof.id now db.items hitem.2 item
        hitemmem rfl hunp
    rw [hmofs] at hm'
    split at hm'
    · rename_i hcq
      obtain ⟨m0, hm0, hid0, hcase⟩ := setMofStatus_mem hm'
      have hm0m : m0 = m := List.inj_on_of_nodup_map hmnd hm0 hm (hid0 ▸ hid)
      cases hcase with
      | inl hc =>
        have hmmof : m = mof :=
          List.inj_on_of_nodup_map hmnd hm hmofmem (hm0m ▸ hc.1)
        have hnotdone : m.status ≠ .completed := by
          intro hdone
          have hge : mof.quantity_requested ≤ pickedCount db.items mof.id :=
            hcnt mof hmofmem (Or.inr (hmmof ▸ hdone))
          rw [hself] at hcq
          omega
        constructor
        · rw [hc.2, hm0m]
          show m.status.rank ≤ MofStatus.rank .siapSupply
          cases hst : m.status <;> simp [MofStatus.rank]
          exact absurd hst hnotdone
        · intro hdone
          exact absurd hdone hnotdone
      | inr hc =>
        rw [hc.2, hm0m]
        exact ⟨le_refl _, fun hcc => hcc⟩
    · rename_i hcq
      split at hm'
      · rename_i hpend
        obtain ⟨m0, hm0, hid0, hcase⟩ := setMofStatus_mem hm'
        have hm0m : m0 = m := List.inj_on_of_nodup_map hmnd hm0 hm (hid0 ▸ hid)
        cases hcase with
        | inl hc =>
          have hmmof : m = mof :=
            List.inj_on_of_nodup_map hmnd hm hmofmem (hm0m ▸ hc.1)
          constructor
          · rw [hc.2, hm0m, hmmof, hpend]
            simp [MofStatus.rank]
          · intro hdone
            rw [hmmof, hpend] at hdone
            cases hdone
        | inr hc =>
          rw [hc.2, hm0m]
          exact ⟨le_refl _, fun hcc => hcc⟩
      · have : m' = m := List.inj_on_of_nodup_map hmnd hm' hm hid
        rw [this]
        exact ⟨le_refl _, fun hcc => hcc⟩

/-- A verification never lowers any MOF's status and never leaves
`Completed`: it either completes the MOF or leaves every status alone. -/
theorem verify_status_monotone (db : DB) (ms its : String) (u now : Nat)
    (hmnd : (db.mofs.map Mof.id).Nodup) (m : Mof) (hm : m ∈ db.mofs)
    (m' : Mof) (hm' : m' ∈ (verifyStep db ms its u now).mofs)
    (hid : m'.id = m.id) :
    m.status.rank ≤ m'.status.rank ∧
      (m.status = .completed → m'.status = .completed) := by
  unfold verifyStep at hm'
  cases hs : verifyItem db ms its u now with
  | error e =>
    rw [hs] at hm'
    have : m' = m := List.inj_on_of_nodup_map hmnd hm' hm hid
    rw [this]
    exact ⟨le_refl _, fun hc => hc⟩
  | ok p =>
    rw [hs] at hm'
    obtain ⟨mof, item, hmf, hif, hown, hpick, hver, hit, hu, hitems, hpr,
      hvr, hmofs⟩ := verifyItem_ok_elim hs
    rw [hmofs] at hm'
    split at hm'
    · obtain ⟨m0, hm0, hid0, hcase⟩ := setMofStatus_mem hm'
      have hm0m : m0 = m := List.inj_on_of_nodup_map hmnd hm0 hm (hid0 ▸ hid)
      cases hcase with
      | inl hc =>
        constructor
        · rw [hc.2]
          show m.status.rank ≤ MofStatus.rank .completed
          exact hm0m ▸ rank_le_three m0.status
        · intro _
          rw [hc.2]
      | inr hc =>
        rw [hc.2, hm0m]
        exact ⟨le_refl _, fun hcc => hcc⟩
    · have : m' = m := List.inj_on_of_nodup_map hmnd hm' hm hid
      rw [this]
      exact ⟨le_refl _, fun hcc => hcc⟩

/-! ### Concrete sample stores used by the witnesses -/

def wUser : User := ⟨1, "u1", "u1@x", "User One", .picking, 0, 0⟩

def wMof : Mof := ⟨1, "M1", "P1", 2, 0, "R", "D", "J", .pending, 1, 0, 0⟩

def wItemA : Item := ⟨1, "P1", "S", "IA", false, false, none, none, none, 0, 0⟩

def wItemB : Item := ⟨2, "P1", "S", "IB", false, false, none, none, none, 0, 0⟩

/-- A store with one pending MOF (quantity 2) and two unpicked items of the
matching part number. -/
def wDB : DB := ⟨[wUser], [wMof], [wItemA, wItemB], [], []⟩

def wScanRes : DB × Item :=
  match scanItem wDB "M1" "IA" 5 3 with
  | .ok q => q
  | .error _ => (wDB, wItemA)

/-- Item IA after being scanned for MOF 1. -/
def wItemA1 : Item := ⟨1, "P1", "S", "IA", true, false, some 1, some 3, none, 0, 3⟩

/-- A store where IA is already picked for MOF 1 and not yet verified. -/
def wDB2 : DB := ⟨[wUser], [wMof], [wItemA1, wItemB], [], []⟩

def wVerifyRes : DB × Item :=
  match verifyItem wDB2 "M1" "IA" 7 4 with
  | .ok q => q
  | .error _ => (wDB2, wItemA1)

/-- Request sequence leading to the C1 counterexample state: a MOF for one
unit of part P1 whose single requested unit is already picked, after which
the administrator overrides the status back to Pending. -/
def cexOps : List Op :=
  [.opCreateUser "u" "e" "f" .requester 0,
   .opCreateMof "M1" "P1" 1 0 "r" "d" "p" 0 1,
   .opCreateItem "P1" "s" "IA" 2,
   .opCreateItem "P1" "s" "IB" 3,
   .opScanItem "M1" "IA" 9 4,
   .opUpdateMofStatus 0 .pending 5]

def cexDB : DB := reach cexOps

/-- The scan status rule exactly as the specification words it (§4.1):
`count == quantityRequested` gives "MOF siap Supply",
`count < quantityRequested` with a Pending MOF gives "In Progress",
and otherwise the status is unchanged.  Stated only to be compared with
the behaviour of `scanItem`; the handler's own rule tests `count ≠
quantityRequested` instead of `count < quantityRequested`. -/
def claimedScanStatus (oldStatus : MofStatus) (cnt qty : Nat) : MofStatus :=
  if cnt = qty then .siapSupply
  else if cnt < qty ∧ oldStatus = .pending then .inProgress
  else oldStatus

/-- C1 (counterexample): in the state reached by `cexOps` (quantity 1, one
picked item, status administratively reset to Pending) the scan of item IB
succeeds and yields a picked count of 2, which neither equals nor is below
the requested quantity 1, so the claim's rule demands an unchanged Pending
status — but `scan_item.ts` sets the status to In Progress, because its
second branch fires whenever the count differs from the quantity. -/
theorem C1_counterexample :
    (scanItem cexDB "M1" "IB" 9 6).isOk = true ∧
    (cexDB.mofs.map fun m => (m.id, m.quantity_requested, m.status))
      = [(0, 1, MofStatus.pending)] ∧
    pickedCount (scanStep cexDB "M1" "IB" 9 6).items 0 = 2 ∧
    ((scanStep cexDB "M1" "IB" 9 6).mofs.map Mof.status)
      = [MofStatus.inProgress] ∧
    claimedScanStatus MofStatus.pending 2 1 = MofStatus.pending ∧
    MofStatus.inProgress ≠ MofStatus.pending := by
  decide

/-- C1 (amended): when `scanItem` passes all four preconditions it marks
the found item as picked, binds it to the found MOF, timestamps it, appends
exactly one pick record for that MOF, item and picker, returns the updated
item, and afterwards the MOF's status is "MOF siap Supply" when the new
picked count equals `quantity_requested`, "In Progress" when the count
differs from `quantity_requested` and the status was Pending, and is
otherwise unchanged.  (The claim's `count < quantityRequested` condition is
amended to `count ≠ quantityRequested`.)  The `Nodup` hypothesis is the
primary key of the `mofs` table. -/
theorem C1_scan_success_effects (db : DB) (ms its : String) (u now : Nat)
    (p : DB × Item) (hmnd : (db.mofs.map Mof.id).Nodup)
    (h : scanItem db ms its u now = .ok p) :
    ∃ mof item,
      db.mofs.find? (fun m => m.serial_number == ms) = some mof ∧
      db.items.find? (fun it => it.serial_number == its) = some item ∧
      p.2 = markPicked mof.id now item ∧
      p.2.is_scanned_by_picker = true ∧
      p.2.mof_id = some mof.id ∧
      p.2.picked_at = some now ∧
      p.1.pickRecords = db.pickRecords ++ [⟨mof.id, item.id, u, now⟩] ∧
      p.1.items = scanUpdateItems item.id mof.id now db.items ∧
      p.1.verificationRecords = db.verificationRecords ∧
      p.1.users = db.users ∧
      (∀ m' ∈ p.1.mofs, m'.id = mof.id →
        m'.status =
          (if pickedCount p.1.items mof.id = mof.quantity_requested then
             MofStatus.siapSupply
           else if mof.status = .pending then MofStatus.inProgress
           else mof.status)) := by
  obtain ⟨mof, item, hm, hi, hpart, hunp, hit, hu, hitems, hpr, hvr, hmofs⟩ :=
    scanItem_ok_elim h
  have hmofmem : mof ∈ db.mofs := List.mem_of_find?_eq_some hm
  refine ⟨mof, item, hm, hi, hit, by rw [hit]; rfl, by rw [hit]; rfl,
    by rw [hit]; rfl, hpr, hitems, hvr, hu, ?_⟩
  intro m' hm' hid
  rw [hitems]
  rw [hmofs] at hm'
  split
  · rename_i hcq
    rw [if_pos hcq] at hm'
    obtain ⟨m0, hm0, hid0, hcase⟩ := setMofStatus_mem hm'
    cases hcase with
    | inl hc => rw [hc.2]
    | inr hc => exact absurd (hid0 ▸ hid) hc.1
  · rename_i hcq
    rw [if_neg hcq] at hm'
    split
    · rename_i hpend
      rw [if_pos hpend] at hm'
      obtain ⟨m0, hm0, hid0, hcase⟩ := setMofStatus_mem hm'
      cases hcase with
      | inl hc => rw [hc.2]
      | inr hc => exact absurd (hid0 ▸ hid) hc.1
    · rename_i hpend
      rw [if_neg hpend] at hm'
      have : m' = mof := List.inj_on_of_nodup_map hmnd hm' hmofmem hid
      rw [this]

/-- C1 (witness): the amended theorem applied to the sample store, scanning
item IA for MOF M1 as picker 5 at time 3. -/
theorem C1_witness :
    wScanRes.2 = markPicked 1 3 wItemA ∧
    wScanRes.1.pickRecords = wDB.pickRecords ++ [⟨1, 1, 5, 3⟩] ∧
    wScanRes.1.items = scanUpdateItems 1 1 3 wDB.items := by
  obtain ⟨mof, item, hm, hi, hit, h1, h2, h3, hpr, hitems, hvr, hu, hst⟩ :=
    C1_scan_success_effects wDB "M1" "IA" 5 3 wScanRes (by decide) (by rfl)
  have hmof : mof = wMof := by
    have hw : (wDB.mofs.find? fun m => m.serial_number == "M1") = some wMof := by
      decide
    rw [hw] at hm
    exact (Option.some.inj hm).symm
  have hitem : item = wItemA := by
    have hw : (wDB.items.find? fun it => it.serial_number == "IA") = some wItemA := by
      decide
    rw [hw] at hi
    exact (Option.some.inj hi).symm
  rw [hmof] at hit hpr hitems
  rw [hitem] at hit hpr hitems
  exact ⟨hit, hpr, hitems⟩

/-- C2: when `verifyItem` passes all five preconditions it marks the found
item verified, timestamps it, appends exactly one verification record, and
returns the updated item; afterwards the MOF's status is Completed when the
new verified count is at least `quantity_requested`, and otherwise is
unchanged from its pre-verification value.  The `Nodup` hypothesis is the
primary key of the `mofs` table. -/
theorem C2_verify_success_effects (db : DB) (ms its : String) (u now : Nat)
    (p : DB × Item) (hmnd : (db.mofs.map Mof.id).Nodup)
    (h : verifyItem db ms its u now = .ok p) :
    ∃ mof item,
      db.mofs.find? (fun m => m.serial_number == ms) = some mof ∧
      db.items.find? (fun it => it.serial_number == its) = some item ∧
      p.2 = markVerified now item ∧
      p.2.is_scanned_by_requester = true ∧
      p.2.verified_at = some now ∧
      p.1.verificationRecords =
        db.verificationRecords ++ [⟨mof.id, item.id, u, now⟩] ∧
      p.1.items = verifyUpdateItems item.id now db.items ∧
      p.1.pickRecords = db.pickRecords ∧
      p.1.users = db.users ∧
      (∀ m' ∈ p.1.mofs, m'.id = mof.id →
        m'.status =
          (if mof.quantity_requested ≤ verifiedCount p.1.items mof.id then
             MofStatus.completed
           else mof.status)) := by
  obtain ⟨mof, item, hm, hi, hown, hpick, hver, hit, hu, hitems, hpr, hvr,
    hmofs⟩ := verifyItem_ok_elim h
  have hmofmem : mof ∈ db.mofs := List.mem_of_find?_eq_some hm
  refine ⟨mof, item, hm, hi, hit, by rw [hit]; rfl, by rw [hit]; rfl, hvr,
    hitems, hpr, hu, ?_⟩
  intro m' hm' hid
  rw [hitems]
  rw [hmofs] at hm'
  split
  · rename_i hq
    rw [if_pos hq] at hm'
    obtain ⟨m0, hm0, hid0, hcase⟩ := setMofStatus_mem hm'
    cases hcase with
    | inl hc => rw [hc.2]
    | inr hc => exact absurd (hid0 ▸ hid) hc.1
  · rename_i hq
    rw [if_neg hq] at hm'
    have : m' = mof := List.inj_on_of_nodup_map hmnd hm' hmofmem hid
    rw [this]

/-- C2 (witness): the theorem applied to the store where IA is picked for
MOF M1, verified by requester 7 at time 4. -/
theorem C2_witness :
    wVerifyRes.2 = markVerified 4 wItemA1 ∧
    wVerifyRes.1.verificationRecords =
      wDB2.verificationRecords ++ [⟨1, 1, 7, 4⟩] ∧
    wVerifyRes.1.items = verifyUpdateItems 1 4 wDB2.items := by
  obtain ⟨mof, item, hm, hi, hit, h1, h2, hvr, hitems, hpr, hu, hst⟩ :=
    C2_verify_success_effects wDB2 "M1" "IA" 7 4 wVerifyRes (by decide)
      (by rfl)
  have hmof : mof = wMof := by
    have hw : (wDB2.mofs.find? fun m => m.serial_number == "M1") = some wMof := by
      decide
    rw [hw] at hm
    exact (Option.some.inj hm).symm
  have hitem : item = wItemA1 := by
    have hw : (wDB2.items.find? fun it => it.serial_number == "IA")
        = some wItemA1 := by decide
    rw [hw] at hi
    exact (Option.some.inj hi).symm
  rw [hmof] at hvr
  rw [hitem] at hit hvr hitems
  exact ⟨hit, hvr, hitems⟩

/-- C3: in every store reachable from the empty store through the public
operations, every item satisfies verified → picked and picked → bound, and
a MOF reference set by a successful scan is never changed by any later
operation sequence. -/
theorem C3_item_invariants (ops more : List Op) (it : Item)
    (hit : it ∈ (reach ops).items) :
    (it.is_scanned_by_requester = true → it.is_scanned_by_picker = true) ∧
    (it.is_scanned_by_picker = true → it.mof_id ≠ none) ∧
    (∀ x : Nat, it.mof_id = some x →
      ∀ it' ∈ (reach (ops ++ more)).items, it'.id = it.id →
        it'.mof_id = some x) := by
  have hwf := itemWF_reach ops
  refine ⟨(hwf.1 it hit).1, (hwf.1 it hit).2.1, ?_⟩
  intro x hx it' hit' hid
  have hsplit : reach (ops ++ more) = more.foldl applyOp (reach ops) := by
    unfold reach
    rw [List.foldl_append]
  rw [hsplit] at hit'
  exact mofRef_chain more (reach ops) hwf hit hx it' hit' hid

/-- Operations reaching the C3 witness state: a scan binds item IA (id 0)
to MOF M1 (id 0). -/
def wOps3 : List Op :=
  [.opCreateUser "u" "e" "f" .requester 0,
   .opCreateMof "M1" "P1" 2 0 "r" "d" "p" 0 1,
   .opCreateItem "P1" "s" "IA" 2,
   .opScanItem "M1" "IA" 9 3]

def wMore3 : List Op := [.opVerifyItem "M1" "IA" 8 4]

def headItem (l : List Item) (d : Item) : Item :=
  match l with
  | [] => d
  | a :: _ => a

def wReachItem : Item := headItem (reach wOps3).items wItemA

def wFinalItem : Item := headItem (reach (wOps3 ++ wMore3)).items wItemA

/-- C3 (witness): item IA is bound to MOF 0 after the scan, and its MOF
reference is still 0 after the later verification. -/
theorem C3_witness : wFinalItem.mof_id = some 0 :=
  (C3_item_invariants wOps3 wMore3 wReachItem (by decide)).2.2 0 (by decide)
    wFinalItem (by decide) (by decide)

/-- C4: `scanItem` checks its preconditions in the fixed order — MOF
exists, item exists, part numbers match, not already picked — each failure
a distinct error, and succeeds exactly when all four hold. -/
theorem C4_scan_precondition_order (db : DB) (ms its : String)
    (u now : Nat) :
    (db.mofs.find? (fun m => m.serial_number == ms) = none →
      scanItem db ms its u now = .error .mofNotFound) ∧
    (∀ mof, db.mofs.find? (fun m => m.serial_number == ms) = some mof →
      (db.items.find? (fun it => it.serial_number == its) = none →
        scanItem db ms its u now = .error .itemNotFound) ∧
      (∀ item, db.items.find? (fun it => it.serial_number == its) = some item →
        (item.part_number ≠ mof.part_number →
          scanItem db ms its u now = .error .partNumberMismatch) ∧
        (item.part_number = mof.part_number →
          item.is_scanned_by_picker = true →
          scanItem db ms its u now = .error .alreadyPicked) ∧
        (item.part_number = mof.part_number →
          item.is_scanned_by_picker = false →
          (scanItem db ms its u now).isOk = true))) := by
  constructor
  · intro hm
    unfold scanItem
    rw [hm]
  · intro mof hm
    constructor
    · intro hi
      unfold scanItem
      rw [hm, hi]
    · intro item hi
      refine ⟨?_, ?_, ?_⟩
      · intro hne
        unfold scanItem
        rw [hm, hi]
        simp only
        rw [if_pos hne]
      · intro heq hpick
        unfold scanItem
        rw [hm, hi]
        simp only
        rw [if_neg (not_not_intro heq), if_pos hpick]
      · intro heq hpick
        unfold scanItem
        rw [hm, hi]
        simp only
        rw [if_neg (not_not_intro heq), if_neg (by rw [hpick]; simp)]
        rfl

/-- C4 (witness): on the sample store a scan of an unknown item serial
fails with the item-not-found error, and the scan of IA succeeds. -/
theorem C4_witness :
    scanItem wDB "M1" "IX" 5 3 = .error .itemNotFound ∧
    (scanItem wDB "M1" "IA" 5 3).isOk = true := by
  constructor
  · exact ((C4_scan_precondition_order wDB "M1" "IX" 5 3).2 wMof
      (by decide)).1 (by decide)
  · exact (((C4_scan_precondition_order wDB "M1" "IA" 5 3).2 wMof
      (by decide)).2 wItemA (by decide)).2.2 (by decide) (by decide)

/-- C5: `verifyItem` checks its preconditions in the fixed order — MOF
exists, item exists, item bound to that MOF, already picked, not yet
verified — each failure a distinct error, and succeeds exactly when all
five hold. -/
theorem C5_verify_precondition_order (db : DB) (ms its : String)
    (u now : Nat) :
    (db.mofs.find? (fun m => m.serial_number == ms) = none →
      verifyItem db ms its u now = .error .mofNotFound) ∧
    (∀ mof, db.mofs.find? (fun m => m.serial_number == ms) = some mof →
      (db.items.find? (fun it => it.serial_number == its) = none →
        verifyItem db ms its u now = .error .itemNotFound) ∧
      (∀ item, db.items.find? (fun it => it.serial_number == its) = some item →
        (item.mof_id ≠ some mof.id →
          verifyItem db ms its u now = .error .ownership) ∧
        (item.mof_id = some mof.id →
          item.is_scanned_by_picker = false →
          verifyItem db ms its u now = .error .notYetPicked) ∧
        (item.mof_id = some mof.id →
          item.is_scanned_by_picker = true →
          item.is_scanned_by_requester = true →
          verifyItem db ms its u now = .error .alreadyVerified) ∧
        (item.mof_id = some mof.id →
          item.is_scanned_by_picker = true →
          item.is_scanned_by_requester = false →
          (verifyItem db ms its u now).isOk = true))) := by
  constructor
  · intro hm
    unfold verifyItem
    rw [hm]
  · intro mof hm
    constructor
    · intro hi
      unfold verifyItem
      rw [hm, hi]
    · intro item hi
      refine ⟨?_, ?_, ?_, ?_⟩
      · intro hne
        unfold verifyItem
        rw [hm, hi]
        simp only
        rw [if_pos hne]
      · intro hown hpick
        unfold verifyItem
        rw [hm, hi]
        simp only
        rw [if_neg (not_not_intro hown), if_pos hpick]
      · intro hown hpick hver
        unfold verifyItem
        rw [hm, hi]
        simp only
        rw [if_neg (not_not_intro hown), if_neg (by rw [hpick]; simp),
          if_pos hver]
      · intro hown hpick hver
        unfold verifyItem
        rw [hm, hi]
        simp only
        rw [if_neg (not_not_intro hown), if_neg (by rw [hpick]; simp),
          if_neg (by rw [hver]; simp)]
        rfl

/-- C5 (witness): on the sample stores, verifying the unpicked item IB
bound to no MOF fails with the ownership error, and verifying the picked
item IA succeeds. -/
theorem C5_witness :
    verifyItem wDB2 "M1" "IB" 7 4 = .error .ownership ∧
    (verifyItem wDB2 "M1" "IA" 7 4).isOk = true := by
  constructor
  · exact (((C5_verify_precondition_order wDB2 "M1" "IB" 7 4).2 wMof
      (by decide)).2 wItemB (by decide)).1 (by decide)
  · exact (((C5_verify_precondition_order wDB2 "M1" "IA" 7 4).2 wMof
      (by decide)).2 wItemA1 (by decide)).2.2.2 (by decide) (by decide)
      (by decide)

theorem setMofStatus_find?_serial (mid : Nat) (st : MofStatus) (now : Nat)
    (l : List Mof) (s : String) :
    (setMofStatus mid st now l).find? (fun m => m.serial_number == s)
      = (l.find? fun m => m.serial_number == s).map
          (fun m => if m.id = mid then { m with status := st, updated_at := now }
                    else m) := by
  unfold setMofStatus
  apply find?_map_pres
  intro a
  by_cases h : a.id = mid <;> simp [h]

theorem scanUpdateItems_find?_serial (iid mid now : Nat) (l : List Item)
    (s : String) :
    (scanUpdateItems iid mid now l).find? (fun it => it.serial_number == s)
      = (l.find? fun it => it.serial_number == s).map
          (fun it => if it.id = iid then markPicked mid now it else it) := by
  unfold scanUpdateItems
  apply find?_map_pres
  intro a
  by_cases h : a.id = iid <;> simp [h, markPicked]

/-- C6: every precondition failure of `scanItem` or `verifyItem` leaves the
store untouched (the handlers throw before writing), and scanning the same
item twice against the same MOF succeeds once, fails the second time with
the already-picked error, and leaves the store exactly as after the first
scan. -/
theorem C6_rejection_preserves_state (db : DB) (ms its : String)
    (u now u2 now2 : Nat) :
    (∀ e, scanItem db ms its u now = .error e →
      scanStep db ms its u now = db) ∧
    (∀ e, verifyItem db ms its u now = .error e →
      verifyStep db ms its u now = db) ∧
    (∀ p, scanItem db ms its u now = .ok p →
      scanItem p.1 ms its u2 now2 = .error .alreadyPicked ∧
      scanStep p.1 ms its u2 now2 = p.1) := by
  refine ⟨?_, ?_, ?_⟩
  · intro e he
    unfold scanStep
    rw [he]
  · intro e he
    unfold verifyStep
    rw [he]
  · intro p hp
    obtain ⟨mof, item, hm, hi, hpart, hunp, hit, hu, hitems, hpr, hvr,
      hmofs⟩ := scanItem_ok_elim hp
    have hi1 : p.1.items.find? (fun it => it.serial_number == its)
        = some (markPicked mof.id now item) := by
      rw [hitems, scanUpdateItems_find?_serial, hi]
      simp
    have hm1 : ∃ mof1, p.1.mofs.find? (fun m => m.serial_number == ms)
        = some mof1 ∧ mof1.part_number = mof.part_number := by
      rw [hmofs]
      split
      · rw [setMofStatus_find?_serial, hm]
        refine ⟨_, rfl, ?_⟩
        by_cases h : mof.id = mof.id <;> simp [h]
      · split
        · rw [setMofStatus_find?_serial, hm]
          refine ⟨_, rfl, ?_⟩
          by_cases h : mof.id = mof.id <;> simp [h]
        · exact ⟨mof, hm, rfl⟩
    obtain ⟨mof1, hm1eq, hm1part⟩ := hm1
    have herr : scanItem p.1 ms its u2 now2 = .error .alreadyPicked := by
      unfold scanItem
      rw [hm1eq, hi1]
      simp only
      rw [if_neg (not_not_intro (by rw [hm1part, ← hpart]; rfl))]
      rw [if_pos (by simp [markPicked])]
    refine ⟨herr, ?_⟩
    unfold scanStep
    rw [herr]

/-- C6 (witness): on the sample store the first scan of IA succeeds, a
second scan of IA is rejected as already picked, and the store is exactly
the one left by the first scan; a verification of the unknown serial also
leaves the store unchanged. -/
theorem C6_witness :
    scanItem wScanRes.1 "M1" "IA" 6 8 = .error .alreadyPicked ∧
    scanStep wScanRes.1 "M1" "IA" 6 8 = wScanRes.1 ∧
    verifyStep wDB "M1" "IX" 6 8 = wDB := by
  have h3 := (C6_rejection_preserves_state wDB "M1" "IA" 5 3 6 8).2.2
    wScanRes (by rfl)
  have h2 := (C6_rejection_preserves_state wDB "M1" "IX" 6 8 0 0).2.1
    .itemNotFound (by rfl)
  exact ⟨h3.1, h3.2, h2⟩

/-- C7: from any store reachable without the administrative override, one
further scan or verification never lowers any MOF's status along the order
Pending < In Progress < MOF siap Supply < Completed, and never moves a
Completed MOF to any other status.  (Since every such sequence is a
composition of single steps from reachable stores, statuses are monotone
along whole scan/verify sequences.) -/
theorem C7_status_monotone (ops : List Op)
    (hops : ∀ op ∈ ops, op.isOverride = false) (step : Op)
    (hstep : step.isScanOrVerify = true) (m : Mof)
    (hm : m ∈ (reach ops).mofs) (m' : Mof)
    (hm' : m' ∈ (applyOp (reach ops) step).mofs) (hid : m'.id = m.id) :
    m.status.rank ≤ m'.status.rank ∧
      (m.status = .completed → m'.status = .completed) := by
  have hwf := lifeWF_reach ops hops
  cases step with
  | opScanItem ms its pb n =>
    exact scan_status_monotone (reach ops) ms its pb n hwf m hm m' hm' hid
  | opVerifyItem ms its vb n =>
    exact verify_status_monotone (reach ops) ms its vb n hwf.2.1 m hm m' hm'
      hid
  | opCreateUser u e f r n => simp [Op.isScanOrVerify] at hstep
  | opCreateMof s pn q erd rn d pj cb n => simp [Op.isScanOrVerify] at hstep
  | opCreateItem pn sup sn n => simp [Op.isScanOrVerify] at hstep
  | opUpdateMofStatus mid st n => simp [Op.isScanOrVerify] at hstep
  | opGetMofBySerial s => simp [Op.isScanOrVerify] at hstep
  | opGetMofProgress mid => simp [Op.isScanOrVerify] at hstep
  | opGetAllMofs => simp [Op.isScanOrVerify] at hstep
  | opGetUserMofs uid => simp [Op.isScanOrVerify] at hstep
  | opGetAllItems => simp [Op.isScanOrVerify] at hstep

/-- Override-free request sequence for the C7 witness. -/
def wOps7 : List Op :=
  [.opCreateUser "u" "e" "f" .requester 0,
   .opCreateMof "M1" "P1" 2 0 "r" "d" "p" 0 1,
   .opCreateItem "P1" "s" "IA" 2]

def headMof (l : List Mof) (d : Mof) : Mof :=
  match l with
  | [] => d
  | a :: _ => a

def wC7m : Mof := headMof (reach wOps7).mofs wMof

def wC7m' : Mof :=
  headMof (applyOp (reach wOps7) (.opScanItem "M1" "IA" 9 4)).mofs wMof

/-- C7 (witness): scanning IA from the reachable store keeps MOF 0's status
monotone (Pending to In Progress here). -/
theorem C7_witness : wC7m.status.rank ≤ wC7m'.status.rank :=
  (C7_status_monotone wOps7 (by decide) (.opScanItem "M1" "IA" 9 4)
    (by decide) wC7m (by decide) wC7m' (by decide) (by decide)).1

/-- C8: `updateMofStatus` (modelled from the spec, the handler in the
repository being a placeholder) fails with the not-found error when no MOF
has the given id, and otherwise unconditionally sets that MOF's status to
the given value and returns the updated MOF. -/
theorem C8_updateMofStatus_override (db : DB) (mofId : Nat)
    (st : MofStatus) (now : Nat) :
    (db.mofs.find? (fun m => m.id == mofId) = none →
      updateMofStatus db mofId st now = .error .mofNotFound) ∧
    (∀ mof, db.mofs.find? (fun m => m.id == mofId) = some mof →
      updateMofStatus db mofId st now =
        .ok ({ db with mofs := setMofStatus mofId st now db.mofs },
             { mof with status := st, updated_at := now }) ∧
      ∀ m' ∈ setMofStatus mofId st now db.mofs, m'.id = mofId →
        m'.status = st) := by
  constructor
  · intro h
    unfold updateMofStatus
    rw [h]
  · intro mof hm
    constructor
    · unfold updateMofStatus
      rw [hm]
    · intro m' hm' hid
      obtain ⟨m0, hm0, hid0, hcase⟩ := setMofStatus_mem hm'
      cases hcase with
      | inl hc => rw [hc.2]
      | inr hc => exact absurd (hid0 ▸ hid) hc.1

/-- C8 (witness): overriding MOF 1 of the sample store to Completed. -/
theorem C8_witness :
    updateMofStatus wDB 1 MofStatus.completed 9 =
      .ok ({ wDB with mofs := setMofStatus 1 MofStatus.completed 9 wDB.mofs },
           { wMof with status := MofStatus.completed, updated_at := 9 }) :=
  ((C8_updateMofStatus_override wDB 1 MofStatus.completed 9).2 wMof
    (by decide)).1

/-- C9: `getMofProgress` returns the null sentinel when the MOF id is
unknown, and otherwise the MOF together with its items filtered by the two
booleans and the lengths of those lists; it is read-only and leaves the
store unchanged. -/
theorem C9_getMofProgress (db : DB) (mofId : Nat) :
    (db.mofs.find? (fun m => m.id == mofId) = none →
      getMofProgress db mofId = none) ∧
    (∀ mof, db.mofs.find? (fun m => m.id == mofId) = some mof →
      getMofProgress db mofId = some
        ⟨mof, mof.quantity_requested,
         ((db.items.filter fun it => it.mof_id == some mofId).filter
            fun it => it.is_scanned_by_picker).length,
         ((db.items.filter fun it => it.mof_id == some mofId).filter
            fun it => it.is_scanned_by_requester).length,
         (db.items.filter fun it => it.mof_id == some mofId).filter
            fun it => it.is_scanned_by_picker,
         (db.items.filter fun it => it.mof_id == some mofId).filter
            fun it => it.is_scanned_by_requester⟩) ∧
    applyOp db (.opGetMofProgress mofId) = db := by
  refine ⟨?_, ?_, rfl⟩
  · intro h
    unfold getMofProgress
    rw [h]
  · intro mof hm
    unfold getMofProgress
    rw [hm]

/-- C9 (witness): progress of MOF 1 in the store where IA is picked: one
item picked, none verified, quantity 2 requested. -/
theorem C9_witness :
    getMofProgress wDB2 1 = some ⟨wMof, 2, 1, 0, [wItemA1], []⟩ := by
  have h := (C9_getMofProgress wDB2 1).2.1 wMof (by decide)
  rw [h]
  decide

/-- Replace the picker recorded in the last pick record, if any. -/
def shiftLastPicker (u : Nat) (l : List PickRecord) : List PickRecord :=
  l.dropLast ++
    (match l.getLast? with
     | some r => [{ r with picked_by := u }]
     | none => [])

/-- Replace the verifier recorded in the last verification record, if any. -/
def shiftLastVerifier (u : Nat) (l : List VerificationRecord) :
    List VerificationRecord :=
  l.dropLast ++
    (match l.getLast? with
     | some r => [{ r with verified_by := u }]
     | none => [])

theorem shiftLastPicker_concat (u : Nat) (l : List PickRecord)
    (r : PickRecord) :
    shiftLastPicker u (l ++ [r]) = l ++ [{ r with picked_by := u }] := by
  unfold shiftLastPicker
  rw [List.getLast?_concat, List.dropLast_concat]

theorem shiftLastVerifier_concat (u : Nat) (l : List VerificationRecord)
    (r : VerificationRecord) :
    shiftLastVerifier u (l ++ [r]) = l ++ [{ r with verified_by := u }] := by
  unfold shiftLastVerifier
  rw [List.getLast?_concat, List.dropLast_concat]

/-- C10: neither engine validates the acting user: for any two user ids the
operations fail identically (with the same error, never a user-not-found
one — no such error exists for them), and on success they produce the very
same store and item except for the actor recorded in the single appended
record. -/
theorem C10_actor_not_validated (db : DB) (ms its : String)
    (u1 u2 now : Nat) :
    (∀ e, scanItem db ms its u1 now = .error e ↔
      scanItem db ms its u2 now = .error e) ∧
    (∀ p, scanItem db ms its u1 now = .ok p →
      (p.1.pickRecords.getLast?).map PickRecord.picked_by = some u1 ∧
      scanItem db ms its u2 now =
        .ok ({ p.1 with pickRecords := shiftLastPicker u2 p.1.pickRecords },
             p.2)) ∧
    (∀ e, verifyItem db ms its u1 now = .error e ↔
      verifyItem db ms its u2 now = .error e) ∧
    (∀ p, verifyItem db ms its u1 now = .ok p →
      (p.1.verificationRecords.getLast?).map VerificationRecord.verified_by
        = some u1 ∧
      verifyItem db ms its u2 now =
        .ok ({ p.1 with verificationRecords :=
                 shiftLastVerifier u2 p.1.verificationRecords },
             p.2)) := by
  refine ⟨?_, ?_, ?_, ?_⟩
  · intro e
    unfold scanItem
    cases hm : db.mofs.find? fun m => m.serial_number == ms with
    | none => exact Iff.rfl
    | some mof =>
      cases hi : db.items.find? fun it => it.serial_number == its with
      | none => exact Iff.rfl
      | some item =>
        simp only
        by_cases h1 : item.part_number ≠ mof.part_number
        · rw [if_pos h1, if_pos h1]
        · rw [if_neg h1, if_neg h1]
          by_cases h2 : item.is_scanned_by_picker
          · rw [if_pos h2, if_pos h2]
          · rw [if_neg h2, if_neg h2]
            constructor <;> intro hcon <;> exact absurd hcon (by simp)
  · intro p hp
    obtain ⟨mof, item, hm, hi, hpart, hunp, hit, hu, hitems, hpr, hvr,
      hmofs⟩ := scanItem_ok_elim hp
    constructor
    · rw [hpr, List.getLast?_concat]
      rfl
    · have hrec : shiftLastPicker u2 p.1.pickRecords
          = db.pickRecords ++ [⟨mof.id, item.id, u2, now⟩] := by
        rw [hpr, shiftLastPicker_concat]
      unfold scanItem
      rw [hm, hi]
      simp only
      rw [if_neg (not_not_intro hpart), if_neg (by rw [hunp]; simp)]
      rw [Except.ok.injEq, Prod.mk.injEq, DB.mk.injEq]
      exact ⟨⟨hu.symm, hmofs.symm, hitems.symm, hrec.symm, hvr.symm⟩,
        hit.symm⟩
  · intro e
    unfold verifyItem
    cases hm : db.mofs.find? fun m => m.serial_number == ms with
    | none => exact Iff.rfl
    | some mof =>
      cases hi : db.items.find? fun it => it.serial_number == its with
      | none => exact Iff.rfl
      | some item =>
        simp only
        by_cases h1 : item.mof_id ≠ some mof.id
        · rw [if_pos h1, if_pos h1]
        · rw [if_neg h1, if_neg h1]
          by_cases h2 : item.is_scanned_by_picker = false
          · rw [if_pos h2, if_pos h2]
          · rw [if_neg h2, if_neg h2]
            by_cases h3 : item.is_scanned_by_requester
            · rw [if_pos h3, if_pos h3]
            · rw [if_neg h3, if_neg h3]
              constructor <;> intro hcon <;> exact absurd hcon (by simp)
  · intro p hp
    obtain ⟨mof, item, hm, hi, hown, hpick, hver, hit, hu, hitems, hpr,
      hvr, hmofs⟩ := verifyItem_ok_elim hp
    constructor
    · rw [hvr, List.getLast?_concat]
      rfl
    · have hrec : shiftLastVerifier u2 p.1.verificationRecords
          = db.verificationRecords ++ [⟨mof.id, item.id, u2, now⟩] := by
        rw [hvr, shiftLastVerifier_concat]
      unfold verifyItem
      rw [hm, hi]
      simp only
      rw [if_neg (not_not_intro hown), if_neg (by rw [hpick]; simp),
        if_neg (by rw [hver]; simp)]
      rw [Except.ok.injEq, Prod.mk.injEq, DB.mk.injEq]
      exact ⟨⟨hu.symm, hmofs.symm, hitems.symm, hpr.symm, hrec.symm⟩,
        hit.symm⟩

/-- C10 (witness): scanning IA as picker 6 instead of picker 5 yields the
same store up to the picker recorded in the single pick record, and the
same returned item. -/
theorem C10_witness :
    scanItem wDB "M1" "IA" 6 3 =
      .ok ({ wScanRes.1 with
              pickRecords := shiftLastPicker 6 wScanRes.1.pickRecords },
           wScanRes.2) :=
  ((C10_actor_not_validated wDB "M1" "IA" 5 6 3).2.1 wScanRes (by rfl)).2
